import Mathlib

/-!
Verification of the visceral rule engine (`src/visceral/`).

Strings are modelled as `List Char`; Python's `str.lower` is modelled on its
ASCII fragment by `Char.toLower`, and `float` values (rule confidences and the
derived success rate) as exact rationals `ℚ`.  Python dictionaries
(`RuleEngine.rules`, the session context) are modelled as association lists in
insertion order, which is the iteration order Python guarantees.  Fallible
Python code (statements that can raise) is modelled with `Except`, the raised
exception's message being the error value.
-/

set_option linter.unusedVariables false

/-- Conversion from Lean string literals to the `List Char` string model. -/
def str (s : String) : List Char := s.data

/-- The characters treated as whitespace by Python's `str.strip()` (ASCII part). -/
def isPySpace (c : Char) : Bool :=
  c = ' ' || c = '\t' || c = '\n' || c = '\r' || c = Char.ofNat 11 || c = Char.ofNat 12

/-- Python `str.lower()` (ASCII fragment). -/
def pyLower (s : List Char) : List Char := s.map Char.toLower

/-- Remove trailing whitespace, Python `str.rstrip()`. -/
def stripRight (s : List Char) : List Char :=
  (s.reverse.dropWhile isPySpace).reverse

/-- Python `str.strip()`: drop leading and trailing whitespace. -/
def pyStrip (s : List Char) : List Char :=
  stripRight (s.dropWhile isPySpace)

/-- Python `str.strip(chars)`: drop leading and trailing characters from `set`. -/
def pyStripSet (set : List Char) (s : List Char) : List Char :=
  (((s.dropWhile (fun c => set.contains c)).reverse.dropWhile
      (fun c => set.contains c))).reverse

/-- Python `c in s` for a single character `c`. -/
def hasChar (c : Char) : List Char → Bool
  | [] => false
  | x :: xs => if x = c then true else hasChar c xs

/-- Python `s.startswith(p)`. -/
def pyStartsWith : List Char → List Char → Bool
  | [], _ => true
  | _ :: _, [] => false
  | p :: ps, x :: xs => if p = x then pyStartsWith ps xs else false

/-- Python substring test `needle in haystack`. -/
def isSub (n : List Char) : List Char → Bool
  | [] => n.isEmpty
  | x :: xs => pyStartsWith n (x :: xs) || isSub n xs

/-- Split at the first occurrence of `c`: Python `s.split(c, 1)` as a pair
(both components, assuming `c` occurs; if `c` does not occur the result is
`(s, [])` and callers guard with `hasChar`). -/
def splitOnce (c : Char) : List Char → List Char × List Char
  | [] => ([], [])
  | x :: xs => if x = c then ([], xs) else
      ((x :: (splitOnce c xs).1), (splitOnce c xs).2)

/-- Helper for `pySplit`: returns the segment before the first `c` and the
list of the remaining segments. -/
def pySplitAux (c : Char) : List Char → List Char × List (List Char)
  | [] => ([], [])
  | x :: xs =>
      if x = c then ([], (pySplitAux c xs).1 :: (pySplitAux c xs).2)
      else (x :: (pySplitAux c xs).1, (pySplitAux c xs).2)

/-- Python `s.split(c)` for a one-character separator (no maxsplit). -/
def pySplit (c : Char) (s : List Char) : List (List Char) :=
  (pySplitAux c s).1 :: (pySplitAux c s).2

/-- Python `s.split(c, maxsplit)` for a one-character separator. -/
def pySplitMax (c : Char) : ℕ → List Char → List (List Char)
  | 0, s => [s]
  | n + 1, s => if hasChar c s then (splitOnce c s).1 :: pySplitMax c n (splitOnce c s).2
                else [s]

/-- Python `sep.join(parts)` for a one-character separator. -/
def joinSep (c : Char) : List (List Char) → List Char
  | [] => []
  | [p] => p
  | p :: q :: rest => p ++ c :: joinSep c (q :: rest)

/-- The session context `self.context`: a string-to-string mapping, modelled
as an association list in insertion order. -/
abbrev Ctx := List (List Char × List Char)

/-- Python `context.get(key)`. -/
def ctxGet (ctx : Ctx) (k : List Char) : Option (List Char) :=
  match ctx with
  | [] => none
  | (k', v) :: rest => if k' = k then some v else ctxGet rest k

/-- Python `context[key] = value`: overwrite in place if present, else append. -/
def ctxSet (ctx : Ctx) (k v : List Char) : Ctx :=
  match ctx with
  | [] => [(k, v)]
  | (k', v') :: rest => if k' = k then (k, v) :: rest else (k', v') :: ctxSet rest k v

/-- Python `if key in context: del context[key]` (keys are unique in a dict,
so deleting the first occurrence models `del`). -/
def ctxDel (ctx : Ctx) (k : List Char) : Ctx :=
  match ctx with
  | [] => []
  | (k', v') :: rest => if k' = k then rest else (k', v') :: ctxDel rest k

/-- `Rule` from `visceral/core/datamodels.py`: confidences (Python floats)
are modelled as exact rationals; `id`, timestamps and the text fields as
`List Char` strings. -/
structure Rule where
  condition : List Char
  action : List Char
  id : List Char
  confidence : ℚ
  success_count : ℕ
  failure_count : ℕ
  created_at : List Char
  last_used : List Char
deriving DecidableEq

/-- `Rule.success_rate`: `success_count / total` if any feedback was seen,
else `0.5`. -/
def successRate (r : Rule) : ℚ :=
  if r.success_count + r.failure_count > 0 then
    (r.success_count : ℚ) / ((r.success_count : ℚ) + (r.failure_count : ℚ))
  else mkRat 1 2

/-- The ranking key `r.confidence * r.success_rate` used by `match_rule`. -/
def score (r : Rule) : ℚ := r.confidence * successRate r

/-- The query-clause part of `RuleEngine._condition_matches` (engine.py
lines 68-80): an empty clause matches unconditionally; otherwise the clause
is split into `'|'`-separated OR-groups, each group into `'+'`-separated
AND-keywords (both trimmed), and some group must have all of its keywords
as substrings of the query. -/
def queryClauseMatches (qc query : List Char) : Bool :=
  if qc = [] then true
  else ((pySplit '|' qc).map pyStrip).any
        (fun g => ((pySplit '+' g).map pyStrip).all (fun t => isSub t query))

/-- Steps 1 and 2 of `RuleEngine._condition_matches` (engine.py lines
52-80), applied to the already-split context clause `ccs` and query clause
`qc`: a non-empty context clause must have the `context:` prefix, an inner
`':'`, and an exactly-matching context entry (else the rule is
non-matching); then the query clause decides. -/
def contextAndQuery (ccs qc query : List Char) (ctx : Ctx) : Bool :=
  if ccs ≠ [] then
    if pyStartsWith (str "context:") ccs then
      if hasChar ':' (ccs.drop 8) then
        if ctxGet ctx (splitOnce ':' (ccs.drop 8)).1 = some (splitOnce ':' (ccs.drop 8)).2 then
          queryClauseMatches qc query
        else false
      else false
    else false
  else queryClauseMatches qc query

/-- The clause split of `RuleEngine._condition_matches` (engine.py lines
40-50) on the lowered-and-stripped condition `cl`: a `';'` separates the
(trimmed) context clause from the (trimmed) query clause, otherwise the
whole condition is the query clause. -/
def conditionMatchesCL (cl query : List Char) (ctx : Ctx) : Bool :=
  if hasChar ';' cl then
    contextAndQuery (pyStrip (splitOnce ';' cl).1) (pyStrip (splitOnce ';' cl).2) query ctx
  else contextAndQuery [] cl query ctx

/-- `RuleEngine._condition_matches` (engine.py lines 36-80).  `query` is the
already lower-cased and stripped query passed in by `match_rule`. -/
def conditionMatches (condition query : List Char) (ctx : Ctx) : Bool :=
  conditionMatchesCL (pyStrip (pyLower condition)) query ctx

/-- The rules that `match_rule` collects into `matched_rules`, in dict
iteration order (= insertion order). -/
def matchedRules (rules : List Rule) (query : List Char) (ctx : Ctx) : List Rule :=
  rules.filter (fun r => conditionMatches r.condition (pyStrip (pyLower query)) ctx)

/-- `matched_rules.sort(key=lambda r: r.confidence * r.success_rate,
reverse=True)` followed by `matched_rules[0]`: CPython's sort is stable and
`reverse=True` keeps the original relative order of equal keys, so the
selected element is the first, in iteration order, among those of maximal
score.  `selectBest` computes that leftmost maximum directly. -/
def selectBest : List Rule → Option Rule
  | [] => none
  | r :: rest =>
      match selectBest rest with
      | none => some r
      | some b => if score b > score r then some b else some r

/-- `RuleEngine.match_rule` (engine.py lines 16-34). -/
def matchRule (rules : List Rule) (query : List Char) (ctx : Ctx) : Option Rule :=
  selectBest (matchedRules rules query ctx)

/-- `RuleEngine.add_rule`'s default confidence `0.85`. -/
def addRuleConfidence : ℚ := mkRat 17 20

/-- Helper building a rule the way `RuleEngine.add_rule` does (fresh uuid and
timestamps supplied as parameters, zero counts). -/
def mkNewRule (i cond act : List Char) (conf : ℚ) (now : List Char) : Rule :=
  ⟨cond, act, i, conf, 0, 0, now, now⟩

/-- The three base rules seeded by `VisceralAgent._ensure_base_rules`
(agent.py lines 33-38), with `add_rule`'s default confidence `0.85`; the
uuid ids and timestamps are represented by placeholder strings. -/
def baseRules : List Rule :=
  [ mkNewRule (str "b1") (str "hello hi hey") (str "Hello! How can I help you today?")
      addRuleConfidence (str "t0"),
    mkNewRule (str "b2") (str "bored")
      (str "set_context:boredom_prompt:true;I can help with that. Are you in the mood for a movie, a book, or a game?")
      addRuleConfidence (str "t0"),
    mkNewRule (str "b3") (str "context:boredom_prompt:true;movie")
      (str "clear_context:boredom_prompt;Excellent choice. I recommend 'Interstellar'.")
      addRuleConfidence (str "t0") ]

/-- `VisceralAgent._execute_action` (agent.py lines 100-130), recursion over
the trimmed `';'`-separated parts: `set_context:key:value` parts update the
context (a part whose `split(':', 2)` does not yield three fields raises
`ValueError`, which the source catches and ignores), `clear_context:key`
parts delete the key if present, and every other part is collected as
response text. -/
def execActionGo : List (List Char) → List (List Char) → Ctx → List Char × Ctx
  | [], acc, ctx => (joinSep ' ' acc, ctx)
  | p :: rest, acc, ctx =>
      if pyStartsWith (str "set_context:") p then
        match pySplitMax ':' 2 p with
        | [_, k, v] => execActionGo rest acc (ctxSet ctx k v)
        | _ => execActionGo rest acc ctx
      else if pyStartsWith (str "clear_context:") p then
        execActionGo rest acc (ctxDel ctx (splitOnce ':' p).2)
      else execActionGo rest (acc ++ [p]) ctx

/-- `VisceralAgent._execute_action`: split the action on `';'`, trim each
part, process the parts in order and return the visible output (the
non-directive parts joined by a single space) with the updated context. -/
def executeAction (action : List Char) (ctx : Ctx) : List Char × Ctx :=
  execActionGo ((pySplit ';' action).map pyStrip) [] ctx

/-- Modelled from the spec (section 9): the action mini-language as a tagged
variant. -/
inductive ActionPart where
  | setCtx (k v : List Char)
  | clearCtx (k : List Char)
  | malformed (t : List Char)
  | respond (t : List Char)
deriving DecidableEq

/-- Modelled from the spec (sections 4.2 and 9): classify one (trimmed)
`';'`-separated part of an action string: a `set_context:<key>:<value>`
directive (wrong arity is `malformed`), a `clear_context:<key>` directive,
or literal response text. -/
def parsePart (p : List Char) : ActionPart :=
  if pyStartsWith (str "set_context:") p then
    match pySplitMax ':' 2 p with
    | [_, k, v] => ActionPart.setCtx k v
    | _ => ActionPart.malformed p
  else if pyStartsWith (str "clear_context:") p then
    ActionPart.clearCtx (splitOnce ':' p).2
  else ActionPart.respond p

/-- Modelled from the spec (section 4.2): execute parsed directives in
order — `setCtx` inserts or overwrites a context entry, `clearCtx` removes
the key (absent key is a no-op), `malformed` directives are skipped without
aborting the remaining parts, and the `respond` parts are joined with a
single space, in original order, to form the visible output. -/
def runParts : List ActionPart → List (List Char) → Ctx → List Char × Ctx
  | [], acc, ctx => (joinSep ' ' acc, ctx)
  | ActionPart.setCtx k v :: rest, acc, ctx => runParts rest acc (ctxSet ctx k v)
  | ActionPart.clearCtx k :: rest, acc, ctx => runParts rest acc (ctxDel ctx k)
  | ActionPart.malformed _ :: rest, acc, ctx => runParts rest acc ctx
  | ActionPart.respond t :: rest, acc, ctx => runParts rest (acc ++ [t]) ctx

/-- Modelled from the spec (sections 4.2 and 9): split on `';'`, parse every
trimmed part into a tagged directive, then execute the parsed form. -/
def executeActionSpec (action : List Char) (ctx : Ctx) : List Char × Ctx :=
  runParts (((pySplit ';' action).map pyStrip).map parsePart) [] ctx

/-- The generative collaborator `OllamaProvider.query`: a stateless text
oracle (its network mechanics are outside the modelled core). -/
abbrev Oracle := List Char → List Char

/-- `ReasoningStep` from `visceral/core/datamodels.py`. -/
structure ReasoningStep where
  rule_id : List Char
  condition_matched : List Char
  action_taken : List Char
  confidence : ℚ
  timestamp : List Char
deriving DecidableEq

/-- `Decision` from `visceral/core/datamodels.py`. -/
structure Decision where
  input_query : List Char
  output : List Char
  reasoning_steps : List ReasoningStep
  final_confidence : ℚ
  source : List Char
  id : List Char
  timestamp : List Char
  feedback_rating : Option ℤ
  feedback_text : Option (List Char)
deriving DecidableEq

/-- The mutable state owned by `VisceralAgent`: the rule set (shared with
the engine, in insertion order), the session context, the decision history
and the maintenance counter. -/
structure AgentState where
  rules : List Rule
  context : Ctx
  history : List Decision
  interactions_since_maintenance : ℕ
deriving DecidableEq

/-- The message of the `NameError` raised by agent.py line 195. -/
def nameErrorMsg : List Char := str "NameError: name 'll' is not defined"

/-- The prompt built by `VisceralAgent._create_new_logic_from_feedback`. -/
def createRulePrompt (failedQuery correctAction : List Char) : List Char :=
  str "Create a specific rule condition from this query: '" ++ failedQuery ++
  str "'. The action will be: '" ++ correctAction ++
  str "'. Respond with 'Condition: [your condition]'."

/-- The prompt built by `VisceralAgent._refine_logic_from_feedback`. -/
def refineRulePrompt (oldCond failedQuery correctAction : List Char) : List Char :=
  str "An old rule with condition '" ++ oldCond ++ str "' failed on query '" ++
  failedQuery ++ str "'. Create a new, more specific condition. The action will be '" ++
  correctAction ++ str "'. Respond with 'Condition: [your new condition]'."

/-- `VisceralAgent._generate_and_save_rule` (agent.py lines 192-204).  Line
194 queries the oracle; line 195 then evaluates
`re.search(r"Condition:\s*(.*)", ll.response, re.IGNORECASE)`, but no name
`ll` is in scope (the variable holding the response is `llm_response`), so
every call raises `NameError: name 'll' is not defined` before any parsing
or rule creation can happen. -/
def generateAndSaveRule (llm : Oracle) (prompt action : List Char)
    (rules : List Rule) : Except (List Char) (List Rule) :=
  let llm_response := llm prompt
  Except.error nameErrorMsg

/-- Scan forward for `']'` on the same line: the lazy group of the pattern
`Redundant IDs:\s*\[(.*?)\]` captures up to the first `']'`, and `.` does
not match a newline. -/
def takeUntilRB : List Char → Option (List Char)
  | [] => none
  | c :: rest =>
      if c = ']' then some []
      else if c = '\n' then none
      else (takeUntilRB rest).map (fun l => c :: l)

/-- Try to match `label` then `\s*\[(.*?)\]` at the start of `s`. -/
def tryBracketAt (label s : List Char) : Option (List Char) :=
  if pyStartsWith label s then
    match (s.drop label.length).dropWhile isPySpace with
    | '[' :: r => takeUntilRB r
    | _ => none
  else none

/-- `re.search(label + r"\s*\[(.*?)\]", response)`: the leftmost position
where the whole pattern matches, returning the capture. -/
def searchBracketAfter (label : List Char) : List Char → Option (List Char)
  | [] => none
  | c :: rest =>
      match tryBracketAt label (c :: rest) with
      | some r => some r
      | none => searchBracketAfter label rest

/-- `re.search(label + r"\s*(.*)", response)`: at the leftmost occurrence of
`label`, skip whitespace (the greedy `\s*`) and capture to the end of the
line (`.` does not match a newline). -/
def searchLineAfter (label : List Char) : List Char → Option (List Char)
  | [] => none
  | c :: rest =>
      if pyStartsWith label (c :: rest) then
        some ((((c :: rest).drop label.length).dropWhile isPySpace).takeWhile
                (fun ch => ch ≠ '\n'))
      else searchLineAfter label rest

/-- The quote characters stripped by `.strip('\'"')`. -/
def quoteChars : List Char := ['\'', '"']

/-- The fixed confidence `0.90` used by `RuleEngine.consolidate_rules`. -/
def consolidatedConfidence : ℚ := mkRat 9 10

/-- `RuleEngine.consolidate_rules`: delete every listed id that exists (ids
not found are only warned about) and append one consolidated rule. -/
def consolidateRules (idsToRemove : List (List Char)) (newCond newAct : List Char)
    (cId now : List Char) (rules : List Rule) : List Rule :=
  (rules.filter (fun r => ¬ idsToRemove.contains r.id)) ++
    [mkNewRule cId newCond newAct consolidatedConfidence now]

/-- The per-rule line of the maintenance prompt's rule summary. -/
def maintenanceRuleLine (r : Rule) : List Char :=
  str "ID: " ++ r.id ++ str ", Condition: '" ++ r.condition ++
  str "', Action: '" ++ r.action ++ str "'"

/-- The maintenance prompt built by `VisceralAgent._maintain_knowledge_base`. -/
def maintenancePrompt (rules : List Rule) : List Char :=
  str "Analyze these rules for redundancies. If any have similar actions, propose a consolidation. Respond with 'Redundant IDs: [...]', 'Consolidated Condition: ...', and 'Consolidated Action: ...' or 'No redundancies found.'\n\nRULES:\n" ++
  joinSep '\n' (rules.map maintenanceRuleLine)

/-- `VisceralAgent._maintain_knowledge_base` (agent.py lines 132-157):
skipped below 3 rules; on a response announcing no redundancies, or one
where any of the three labelled fields fails to parse, the rule set is left
unchanged; otherwise the named ids are consolidated into one new rule. -/
def maintainKB (llm : Oracle) (cId now : List Char) (rules : List Rule) : List Rule :=
  if rules.length < 3 then rules
  else
    let response := llm (maintenancePrompt rules)
    if isSub (str "No redundancies found") response then rules
    else
      match searchBracketAfter (str "Redundant IDs:") response,
            searchLineAfter (str "Consolidated Condition:") response,
            searchLineAfter (str "Consolidated Action:") response with
      | some idsRaw, some condRaw, some actRaw =>
          consolidateRules
            ((pySplit ',' (idsRaw.filter (fun c => ¬ quoteChars.contains c))).map pyStrip)
            (pyStripSet quoteChars (pyStrip condRaw))
            (pyStripSet quoteChars (pyStrip actRaw))
            cId now rules
      | _, _, _ => rules

/-- `VisceralAgent.process_query` (agent.py lines 55-98).  `cId`, `dId` and
`now` stand for the fresh uuids and timestamps drawn during the call; the
flush to persistence at the end does not change the in-memory state and is
not modelled.  In the unmatched branch the decision is built with the
initialisation value `confidence = 0.0` of line 67, which the branch never
reassigns. -/
def processQuery (llm : Oracle) (cId dId now : List Char) (st : AgentState)
    (q : List Char) : Decision × AgentState :=
  let cnt := st.interactions_since_maintenance + 1
  let rules0 := if cnt ≥ 5 then maintainKB llm cId now st.rules else st.rules
  let cnt0 := if cnt ≥ 5 then 0 else cnt
  match matchRule rules0 q st.context with
  | some r =>
      let oc := executeAction r.action st.context
      let d : Decision :=
        ⟨q, oc.1, [⟨r.id, r.condition, r.action, r.confidence, now⟩],
         r.confidence * successRate r, str "Symbolic Rule", dId, now, none, none⟩
      (d, ⟨rules0.map (fun x => if x.id = r.id then { x with last_used := now } else x),
           oc.2, st.history ++ [d], cnt0⟩)
  | none =>
      let d : Decision := ⟨q, llm q, [], 0, str "LLM", dId, now, none, none⟩
      (d, ⟨rules0, [], st.history ++ [d], cnt0⟩)

/-- `VisceralAgent.provide_feedback` (agent.py lines 159-173).  An error
value carries the exception message together with the in-memory state at the
moment of the raise (Python mutates rule counts in place before the refine
call can raise). -/
def provideFeedback (llm : Oracle) (st : AgentState) (dId : List Char)
    (rating : ℤ) (fbText : List Char) : Except (List Char × AgentState) AgentState :=
  match st.history.find? (fun x => x.id == dId) with
  | none => Except.ok st
  | some d =>
      if d.source = str "Symbolic Rule" then
        match d.reasoning_steps with
        | [] => Except.error (str "IndexError: list index out of range", st)
        | step :: _ =>
            match st.rules.find? (fun r => r.id == step.rule_id) with
            | none => Except.ok st
            | some r =>
                let r' := if rating ≥ 4 then { r with success_count := r.success_count + 1 }
                          else { r with failure_count := r.failure_count + 1 }
                let st' := { st with rules := st.rules.map (fun x => if x.id = r.id then r' else x) }
                if ¬ (rating ≥ 4) ∧ fbText ≠ [] then
                  match generateAndSaveRule llm
                      (refineRulePrompt r'.condition d.input_query fbText) fbText st'.rules with
                  | Except.error e => Except.error (e, st')
                  | Except.ok rules2 => Except.ok { st' with rules := rules2 }
                else Except.ok st'
      else
        if ¬ (rating ≥ 4) ∧ fbText ≠ [] then
          match generateAndSaveRule llm
              (createRulePrompt d.input_query fbText) fbText st.rules with
          | Except.error e => Except.error (e, st)
          | Except.ok rules2 => Except.ok { st with rules := rules2 }
        else Except.ok st

/-- Fixed-point rendering with two decimals, modelling Python's `f"{x:.2f}"`
on the exact rational value (the float formatter rounds the nearest binary
double; on the values reachable here the results agree). -/
def fmt2 (q : ℚ) : List Char :=
  let m : ℤ := ⌊q * 100 + mkRat 1 2⌋
  let a := m.natAbs
  (if m < 0 then str "-" else []) ++ (toString (a / 100)).data ++ str "." ++
    (if a % 100 < 10 then str "0" else []) ++ (toString (a % 100)).data

/-- Python's `f"{x:.2%}"`: the value times 100, two decimals, a percent sign. -/
def fmtPct2 (q : ℚ) : List Char := fmt2 (q * 100) ++ str "%"

/-- The symbolic-rule explanation text of `VisceralAgent.explain_decision`. -/
def explainRuleText (r : Rule) : List Char :=
  str "Source: Symbolic Rule (ID: " ++ r.id ++
  str ")\n-----------------------------------------\nCondition: '" ++ r.condition ++
  str "' -> Action: '" ++ r.action ++ str "'\nConfidence: " ++ fmt2 r.confidence ++
  str ", Success Rate: " ++ fmtPct2 (successRate r)

/-- `VisceralAgent.explain_decision` (agent.py lines 206-218); the
`Except` error case models the `IndexError` a symbolic decision with no
reasoning step would raise. -/
def explainDecision (st : AgentState) (dId : List Char) : Except (List Char) (List Char) :=
  match st.history.find? (fun x => x.id == dId) with
  | none => Except.ok (str "Decision not found.")
  | some d =>
      if d.source = str "Symbolic Rule" then
        match d.reasoning_steps with
        | [] => Except.error (str "IndexError: list index out of range")
        | step :: _ =>
            match st.rules.find? (fun r => r.id == step.rule_id) with
            | none => Except.ok (str "Error: Could not find the rule used for this decision.")
            | some r => Except.ok (explainRuleText r)
      else
        Except.ok (str "Source: LLM Fallback\n--------------------\nI didn't have a specific rule, so I used my general knowledge to generate a response.")

/-- One serialized rule record, the dictionary `rule.__dict__` that
`JsonMemory.save_rules` writes: exactly the stored `Rule` fields (the
derived `success_rate` property is not stored).  JSON round-trips strings,
integers and the (repr-printed) float exactly, so the record fields carry
the same model types as `Rule`. -/
structure RuleRecord where
  condition : List Char
  action : List Char
  id : List Char
  confidence : ℚ
  success_count : ℕ
  failure_count : ℕ
  created_at : List Char
  last_used : List Char
deriving DecidableEq

/-- `JsonMemory.save_rules`: the list of field records, in rule order. -/
def saveRules (rs : List Rule) : List RuleRecord :=
  rs.map (fun r => ⟨r.condition, r.action, r.id, r.confidence, r.success_count,
                    r.failure_count, r.created_at, r.last_used⟩)

/-- `Rule(**data)`: rebuild a rule from a stored record. -/
def ruleOfDict (d : RuleRecord) : Rule :=
  ⟨d.condition, d.action, d.id, d.confidence, d.success_count, d.failure_count,
   d.created_at, d.last_used⟩

/-- Insertion into the rules dictionary: overwrite in place if the key is
present, else append (Python dict semantics). -/
def rulesDictInsert (m : List (List Char × Rule)) (k : List Char) (v : Rule) :
    List (List Char × Rule) :=
  match m with
  | [] => [(k, v)]
  | (k', v') :: rest => if k' = k then (k, v) :: rest
                        else (k', v') :: rulesDictInsert rest k v

/-- `JsonMemory.load_rules` on a readable file: the dict comprehension
`{data['id']: Rule(**data) for data in rules_data}`, built left to right. -/
def loadRules (ds : List RuleRecord) : List (List Char × Rule) :=
  ds.foldl (fun m d => rulesDictInsert m d.id (ruleOfDict d)) []

/-! ### Lemmas about the string primitives -/

theorem hasChar_eq_true_iff (c : Char) (s : List Char) : hasChar c s = true ↔ c ∈ s := by
  induction s with
  | nil => simp [hasChar]
  | cons x xs ih =>
      by_cases hx : x = c
      · subst hx; simp [hasChar]
      · simp [hasChar, hx, ih, Ne.symm hx]

theorem hasChar_append (c : Char) (a b : List Char) :
    hasChar c (a ++ b) = (hasChar c a || hasChar c b) := by
  induction a with
  | nil => simp [hasChar]
  | cons x xs ih =>
      by_cases hx : x = c <;> simp [hasChar, hx, ih]

theorem pyStartsWith_self_append (p rest : List Char) :
    pyStartsWith p (p ++ rest) = true := by
  induction p with
  | nil => simp [pyStartsWith]
  | cons x xs ih => simp [pyStartsWith, ih]

theorem pyStartsWith_iff (p s : List Char) :
    pyStartsWith p s = true ↔ ∃ rest, s = p ++ rest := by
  induction p generalizing s with
  | nil => simp [pyStartsWith]
  | cons x xs ih =>
      cases s with
      | nil => simp [pyStartsWith]
      | cons y ys =>
          by_cases hx : x = y
          · subst hx
            simp [pyStartsWith, ih]
          · simp [pyStartsWith, hx, Ne.symm hx]

theorem isSub_iff (n h : List Char) : isSub n h = true ↔ ∃ a b, h = a ++ n ++ b := by
  induction h with
  | nil =>
      simp only [isSub, List.isEmpty_iff]
      constructor
      · rintro rfl; exact ⟨[], [], rfl⟩
      · rintro ⟨a, b, hab⟩
        rcases List.append_eq_nil.mp (List.append_eq_nil.mp hab.symm).1 with ⟨-, h2⟩
        exact h2
  | cons x xs ih =>
      simp only [isSub, Bool.or_eq_true, pyStartsWith_iff, ih]
      constructor
      · rintro (⟨rest, hrest⟩ | ⟨a, b, hab⟩)
        · exact ⟨[], rest, by simp [hrest]⟩
        · exact ⟨x :: a, b, by simp [hab]⟩
      · rintro ⟨a, b, hab⟩
        cases a with
        | nil => exact Or.inl ⟨b, by simpa using hab⟩
        | cons y ys =>
            right
            refine ⟨ys, b, ?_⟩
            have := hab
            simp only [List.cons_append, List.cons.injEq] at this
            exact this.2

theorem splitOnce_append (c : Char) (a b : List Char) (ha : hasChar c a = false) :
    splitOnce c (a ++ c :: b) = (a, b) := by
  induction a with
  | nil => simp [splitOnce]
  | cons x xs ih =>
      simp only [hasChar] at ha
      by_cases hx : x = c
      · simp [hx] at ha
      · simp only [List.cons_append, splitOnce, if_neg hx, List.append_eq]
        rw [ih (by simpa [hx] using ha)]

theorem pySplitAux_no_sep (c : Char) (s : List Char) (hs : hasChar c s = false) :
    pySplitAux c s = (s, []) := by
  induction s with
  | nil => rfl
  | cons x xs ih =>
      simp only [hasChar] at hs
      by_cases hx : x = c
      · simp [hx] at hs
      · simp only [pySplitAux, if_neg hx, ih (by simpa [hx] using hs)]

theorem pySplitAux_append (c : Char) (a b : List Char) (ha : hasChar c a = false) :
    pySplitAux c (a ++ c :: b) = (a, (pySplitAux c b).1 :: (pySplitAux c b).2) := by
  induction a with
  | nil => simp [pySplitAux]
  | cons x xs ih =>
      simp only [hasChar] at ha
      by_cases hx : x = c
      · simp [hx] at ha
      · simp only [List.cons_append, pySplitAux, if_neg hx, List.append_eq,
          ih (by simpa [hx] using ha)]

theorem pySplit_no_sep (c : Char) (s : List Char) (hs : hasChar c s = false) :
    pySplit c s = [s] := by
  simp [pySplit, pySplitAux_no_sep c s hs]

theorem pySplit_append (c : Char) (a b : List Char) (ha : hasChar c a = false) :
    pySplit c (a ++ c :: b) = a :: pySplit c b := by
  simp [pySplit, pySplitAux_append c a b ha]

theorem joinSep_cons₂ (c : Char) (p q : List Char) (rest : List (List Char)) :
    joinSep c (p :: q :: rest) = p ++ c :: joinSep c (q :: rest) := rfl

theorem pySplit_joinSep (c : Char) (ps : List (List Char)) (hne : ps ≠ [])
    (h : ∀ p ∈ ps, hasChar c p = false) :
    pySplit c (joinSep c ps) = ps := by
  induction ps with
  | nil => exact absurd rfl hne
  | cons p rest ih =>
      cases rest with
      | nil => exact pySplit_no_sep c p (h p (by simp))
      | cons q rest' =>
          rw [joinSep_cons₂, pySplit_append c _ _ (h p (by simp)),
            ih (by simp) (fun x hx => h x (by simp [hx]))]

theorem hasChar_joinSep (c' c : Char) (ps : List (List Char)) (hcc : c' ≠ c)
    (h : ∀ p ∈ ps, hasChar c' p = false) :
    hasChar c' (joinSep c ps) = false := by
  induction ps with
  | nil => rfl
  | cons p rest ih =>
      cases rest with
      | nil => exact h p (by simp)
      | cons q rest' =>
          rw [joinSep_cons₂, hasChar_append, h p (by simp), hasChar]
          simp only [if_neg (Ne.symm hcc)]
          exact ih (fun x hx => h x (by simp [hx]))

theorem length_dropWhile_le' (p : Char → Bool) (s : List Char) :
    (s.dropWhile p).length ≤ s.length := by
  induction s with
  | nil => simp
  | cons x xs ih =>
      by_cases hx : p x
      · simp only [List.dropWhile, hx, List.length_cons]
        omega
      · simp [List.dropWhile, hx]

theorem dropWhile_eq_self_iff' (p : Char → Bool) (s : List Char) :
    s.dropWhile p = s ↔ ∀ x ∈ s.head?, p x = false := by
  cases s with
  | nil => simp
  | cons x xs =>
      by_cases hx : p x
      · simp only [List.dropWhile, hx, List.head?_cons, Option.mem_some_iff]
        constructor
        · intro h
          have := congrArg List.length h
          have := length_dropWhile_le' p xs
          simp at *; omega
        · intro h
          exact absurd (h x rfl) (by simp [hx])
      · simp [List.dropWhile, hx]

theorem pyStrip_eq_self_iff (s : List Char) :
    pyStrip s = s ↔ ((∀ x ∈ s.head?, isPySpace x = false) ∧
                     (∀ x ∈ s.getLast?, isPySpace x = false)) := by
  constructor
  · intro h
    have hlen1 : (s.dropWhile isPySpace).length ≤ s.length := length_dropWhile_le' _ s
    have hlen2 : (pyStrip s).length ≤ (s.dropWhile isPySpace).length := by
      unfold pyStrip stripRight
      simpa using length_dropWhile_le' isPySpace (s.dropWhile isPySpace).reverse
    have hlen : (s.dropWhile isPySpace).length = s.length := by
      rw [h] at hlen2; omega
    have hdw : s.dropWhile isPySpace = s := by
      rcases List.dropWhile_suffix (l := s) (p := isPySpace) with hsuf
      exact List.IsSuffix.eq_of_length hsuf hlen
    have hhead := (dropWhile_eq_self_iff' isPySpace s).mp hdw
    refine ⟨hhead, ?_⟩
    have h2 : stripRight s = s := by
      unfold pyStrip at h; rw [hdw] at h; exact h
    have h3 : s.reverse.dropWhile isPySpace = s.reverse := by
      unfold stripRight at h2
      have := congrArg List.reverse h2
      simpa using this
    have := (dropWhile_eq_self_iff' isPySpace s.reverse).mp h3
    intro x hx
    exact this x (by rwa [List.head?_reverse])
  · rintro ⟨h1, h2⟩
    have hdw : s.dropWhile isPySpace = s := (dropWhile_eq_self_iff' _ _).mpr h1
    unfold pyStrip stripRight
    rw [hdw, (dropWhile_eq_self_iff' _ _).mpr (by
      intro x hx
      exact h2 x (by rwa [List.head?_reverse] at hx)), List.reverse_reverse]

theorem dropWhile_append' (p : Char → Bool) (xs ys : List Char) :
    (xs ++ ys).dropWhile p =
      if xs.dropWhile p = [] then ys.dropWhile p else xs.dropWhile p ++ ys := by
  induction xs with
  | nil => simp
  | cons x xs ih =>
      by_cases hx : p x
      · simpa [List.dropWhile, hx] using ih
      · simp [List.dropWhile, hx]

theorem stripRight_append_cons (l b : List Char) (c : Char) (hc : isPySpace c = false) :
    stripRight (l ++ c :: b) = l ++ c :: stripRight b := by
  unfold stripRight
  rw [show (l ++ c :: b).reverse = b.reverse ++ c :: l.reverse by simp,
    dropWhile_append' isPySpace b.reverse (c :: l.reverse)]
  by_cases hb : b.reverse.dropWhile isPySpace = []
  · simp [hb, List.dropWhile, hc]
  · simp [hb]

theorem head?_append_of_ne_nil (l1 l2 : List Char) (h : l1 ≠ []) :
    (l1 ++ l2).head? = l1.head? := by
  cases l1 with
  | nil => exact absurd rfl h
  | cons x xs => rfl

theorem getLast?_append_right (l1 l2 : List Char) (h : l2 ≠ []) :
    (l1 ++ l2).getLast? = l2.getLast? := by
  rw [← List.head?_reverse, ← List.head?_reverse (l := l2)]
  rw [show (l1 ++ l2).reverse = l2.reverse ++ l1.reverse by simp]
  exact head?_append_of_ne_nil _ _ (by simpa using h)

theorem pyStrip_append_cons (l b : List Char) (c : Char)
    (hl : ∀ x ∈ l.head?, isPySpace x = false) (hne : l ≠ [])
    (hc : isPySpace c = false) :
    pyStrip (l ++ c :: b) = l ++ c :: stripRight b := by
  unfold pyStrip
  rw [(dropWhile_eq_self_iff' isPySpace (l ++ c :: b)).mpr (by
      intro x hx
      rw [head?_append_of_ne_nil _ _ hne] at hx
      exact hl x hx),
    stripRight_append_cons l b c hc]

theorem pyLower_append (a b : List Char) : pyLower (a ++ b) = pyLower a ++ pyLower b := by
  simp [pyLower]

theorem pyLower_cons (c : Char) (s : List Char) :
    pyLower (c :: s) = c.toLower :: pyLower s := rfl

theorem pyLower_joinSep (c : Char) (hc : c.toLower = c) (ps : List (List Char)) :
    pyLower (joinSep c ps) = joinSep c (ps.map pyLower) := by
  induction ps with
  | nil => rfl
  | cons p rest ih =>
      cases rest with
      | nil => rfl
      | cons q rest' =>
          rw [joinSep_cons₂, pyLower_append, pyLower_cons, hc, ih]
          rfl

theorem joinSep_ne_nil (c : Char) (p : List Char) (ps : List (List Char)) (hp : p ≠ []) :
    joinSep c (p :: ps) ≠ [] := by
  cases ps with
  | nil => exact hp
  | cons q rest => rw [joinSep_cons₂]; simp [hp]

theorem joinSep_edges (c : Char) (hc : isPySpace c = false) (ps : List (List Char))
    (h : ∀ p ∈ ps, (∀ x ∈ p.head?, isPySpace x = false) ∧
                   (∀ x ∈ p.getLast?, isPySpace x = false)) :
    (∀ x ∈ (joinSep c ps).head?, isPySpace x = false) ∧
    (∀ x ∈ (joinSep c ps).getLast?, isPySpace x = false) := by
  induction ps with
  | nil => simp [joinSep]
  | cons p rest ih =>
      cases rest with
      | nil => exact h p (by simp)
      | cons q rest' =>
          have hrest := ih (fun x hx => h x (by simp [hx]))
          rw [joinSep_cons₂]
          constructor
          · intro x hx
            by_cases hp : p = []
            · simp only [hp, List.nil_append, List.head?_cons,
                Option.mem_some_iff] at hx
              subst hx; exact hc
            · rw [head?_append_of_ne_nil _ _ hp] at hx
              exact (h p (by simp)).1 x hx
          · intro x hx
            rw [getLast?_append_right _ _ (by simp)] at hx
            cases hj : joinSep c (q :: rest') with
            | nil =>
                simp only [hj, List.getLast?_singleton, Option.mem_some_iff] at hx
                subst hx; exact hc
            | cons z zs =>
                rw [show (c :: joinSep c (q :: rest')) = [c] ++ joinSep c (q :: rest')
                  from rfl, getLast?_append_right _ _ (by simp [hj])] at hx
                exact hrest.2 x hx

theorem map_eq_self_of {α : Type} (l : List α) (f : α → α) (h : ∀ x ∈ l, f x = x) :
    l.map f = l := by
  induction l with
  | nil => rfl
  | cons x xs ih =>
      simp only [List.map_cons, h x (by simp), ih (fun y hy => h y (by simp [hy]))]

/-! ### Lemmas about rule selection -/

theorem selectBest_mem (l : List Rule) (b : Rule) (h : selectBest l = some b) : b ∈ l := by
  induction l with
  | nil => simp [selectBest] at h
  | cons r rest ih =>
      cases hrest : selectBest rest with
      | none =>
          simp only [selectBest, hrest, Option.some.injEq] at h
          simp [← h]
      | some b' =>
          simp only [selectBest, hrest] at h
          by_cases hs : score b' > score r
          · rw [if_pos hs] at h
            simp only [Option.some.injEq] at h
            exact List.mem_cons_of_mem r (ih (h ▸ hrest))
          · rw [if_neg hs] at h
            simp only [Option.some.injEq] at h
            simp [← h]

theorem selectBest_cons_max (b : Rule) (l2 : List Rule)
    (h2 : ∀ r ∈ l2, score r ≤ score b) : selectBest (b :: l2) = some b := by
  cases hrest : selectBest l2 with
  | none => simp [selectBest, hrest]
  | some b' =>
      simp only [selectBest, hrest]
      rw [if_neg (not_lt.mpr (h2 b' (selectBest_mem l2 b' hrest)))]

theorem selectBest_append (l1 : List Rule) (b : Rule) (l2 : List Rule)
    (h1 : ∀ r ∈ l1, score r < score b) (h2 : ∀ r ∈ l2, score r ≤ score b) :
    selectBest (l1 ++ b :: l2) = some b := by
  induction l1 with
  | nil => exact selectBest_cons_max b l2 h2
  | cons a l1' ih =>
      simp only [List.cons_append, selectBest, List.append_eq]
      rw [ih (fun r hr => h1 r (by simp [hr]))]
      show (if score b > score a then some b else some a) = some b
      rw [if_pos (h1 a (by simp))]

/-! ### Lemmas about context operations -/

theorem ctxGet_ctxSet (ctx : Ctx) (k v : List Char) :
    ctxGet (ctxSet ctx k v) k = some v := by
  induction ctx with
  | nil => simp [ctxSet, ctxGet]
  | cons p rest ih =>
      by_cases hk : p.1 = k
      · simp [ctxSet, ctxGet, hk]
      · simp only [ctxSet]
        rw [if_neg hk]
        simp only [ctxGet]
        rw [if_neg hk]
        exact ih

theorem ctxDel_absent (ctx : Ctx) (k : List Char) (h : ctxGet ctx k = none) :
    ctxDel ctx k = ctx := by
  induction ctx with
  | nil => rfl
  | cons p rest ih =>
      simp only [ctxGet] at h
      by_cases hk : p.1 = k
      · rw [if_pos hk] at h; exact absurd h (by simp)
      · rw [if_neg hk] at h
        simp only [ctxDel]
        rw [if_neg hk, ih h]

/-! ### Lemmas about persistence -/

theorem rulesDictInsert_absent (m : List (List Char × Rule)) (k : List Char) (v : Rule)
    (h : ∀ p ∈ m, p.1 ≠ k) : rulesDictInsert m k v = m ++ [(k, v)] := by
  induction m with
  | nil => rfl
  | cons p rest ih =>
      simp only [rulesDictInsert]
      rw [if_neg (h p (by simp)), ih (fun x hx => h x (by simp [hx]))]
      rfl

theorem loadRules_foldl (ds : List RuleRecord) (m : List (List Char × Rule))
    (hdsm : ∀ d ∈ ds, ∀ p ∈ m, p.1 ≠ d.id)
    (hds : List.Pairwise (fun a b => a.id ≠ b.id) ds) :
    ds.foldl (fun acc d => rulesDictInsert acc d.id (ruleOfDict d)) m =
      m ++ ds.map (fun d => (d.id, ruleOfDict d)) := by
  induction ds generalizing m with
  | nil => simp
  | cons d rest ih =>
      simp only [List.foldl_cons, List.map_cons]
      rw [rulesDictInsert_absent m d.id (ruleOfDict d) (fun p hp => hdsm d (by simp) p hp)]
      rw [ih (m ++ [(d.id, ruleOfDict d)])
        (by
          intro d' hd' p hp
          rcases List.mem_append.mp hp with hp | hp
          · exact hdsm d' (by simp [hd']) p hp
          · simp only [List.mem_singleton] at hp
            subst hp
            exact (List.pairwise_cons.mp hds).1 d' hd')
        (List.pairwise_cons.mp hds).2]
      simp

/-! ### Claim theorems -/

/-- **C1.**  The claim states that the legacy whitespace-separated condition
`"hello hi hey"` is treated as one OR-group of individually OR'd keywords,
so that the query `"hello there"` matches the seeded rule.  Evaluating the
embedded engine on the seeded base rules shows the failing input: the code
treats the whole string `"hello hi hey"` as a single AND-keyword (it splits
only on `'|'` and `'+'`, never on whitespace), so `"hello there"` finds no
matching rule; the fallback half of the claim (`"goodbye"` matches nothing)
does hold. -/
theorem claim_C1 :
    conditionMatches (str "hello hi hey") (pyStrip (pyLower (str "hello there"))) [] = false ∧
    matchRule baseRules (str "hello there") [] = none ∧
    matchRule baseRules (str "goodbye") [] = none := by decide

/-- **C2.**  For a query with no matching rule (and the maintenance cycle
not due), `process_query` delegates to the generative collaborator with the
raw query, clears the context entirely, and records source `LLM` with zero
reasoning steps — but the decision's final confidence is the `0.0` that
line 67 initialised, not the constant `0.3` the claim states: the fallback
branch never reassigns `confidence`. -/
theorem claim_C2 (llm : Oracle) (cId dId now : List Char) (st : AgentState)
    (q : List Char)
    (hcnt : st.interactions_since_maintenance + 1 < 5)
    (hnm : matchRule st.rules q st.context = none) :
    (processQuery llm cId dId now st q).1.output = llm q ∧
    (processQuery llm cId dId now st q).1.source = str "LLM" ∧
    (processQuery llm cId dId now st q).1.reasoning_steps = [] ∧
    (processQuery llm cId dId now st q).1.final_confidence = 0 ∧
    (processQuery llm cId dId now st q).2.context = [] := by
  have h5 : ¬ st.interactions_since_maintenance + 1 ≥ 5 := by omega
  simp [processQuery, h5, hnm]

/-- Witness for C2 at a concrete unmatched query. -/
theorem claim_C2_witness :
    (processQuery (fun _ => str "resp") (str "c") (str "d") (str "t")
        ⟨[], [(str "k", str "v")], [], 0⟩ (str "goodbye")).1.final_confidence = 0 ∧
    (processQuery (fun _ => str "resp") (str "c") (str "d") (str "t")
        ⟨[], [(str "k", str "v")], [], 0⟩ (str "goodbye")).2.context = [] :=
  ⟨(claim_C2 (fun _ => str "resp") (str "c") (str "d") (str "t")
      ⟨[], [(str "k", str "v")], [], 0⟩ (str "goodbye") (by decide) (by decide)).2.2.2.1,
   (claim_C2 (fun _ => str "resp") (str "c") (str "d") (str "t")
      ⟨[], [(str "k", str "v")], [], 0⟩ (str "goodbye") (by decide) (by decide)).2.2.2.2⟩

/-- **C3.**  The claim states that negative feedback with a correction text
on an LLM-fallback decision grows the rule set by one rule and returns
without error.  In the source, `provide_feedback` reaches
`_generate_and_save_rule`, whose line 195 references the undefined name
`ll`, so the call raises `NameError` before any rule can be added — the
oracle's well-formed `Condition:` response and the ethical gate are never
consulted.  The rule set carried at the moment of the raise is unchanged. -/
theorem claim_C3 (llm : Oracle) (st : AgentState) (d : Decision) (fbText : List Char)
    (hd : st.history.find? (fun x => x.id == d.id) = some d)
    (hsrc : d.source = str "LLM")
    (hfb : fbText ≠ []) :
    provideFeedback llm st d.id 1 fbText = Except.error (nameErrorMsg, st) := by
  simp only [provideFeedback, hd]
  rw [if_neg (by rw [hsrc]; decide)]
  rw [if_pos ⟨by decide, hfb⟩]
  rfl

/-- The LLM-fallback decision and agent state of the C3 witness scenario. -/
def c3Decision : Decision :=
  ⟨str "what is the weather", str "some answer", [], 0, str "LLM", str "d0",
   str "t0", none, none⟩

/-- Witness for C3: concrete negative feedback on an LLM decision, with an
oracle that does return a well-formed `Condition:` line. -/
theorem claim_C3_witness :
    provideFeedback (fun _ => str "Condition: foo") ⟨[], [], [c3Decision], 0⟩
      c3Decision.id 1 (str "say X instead") =
      Except.error (nameErrorMsg, ⟨[], [], [c3Decision], 0⟩) :=
  claim_C3 (fun _ => str "Condition: foo") ⟨[], [], [c3Decision], 0⟩ c3Decision
    (str "say X instead") (by decide) (by decide) (by decide)

/-- **C9.**  Feedback referencing a decision id absent from the history is a
no-op: the state (rules included) is returned unchanged and no exception
escapes; `explain_decision` on the same id returns the fixed
`"Decision not found."` text rather than raising. -/
theorem claim_C9 (llm : Oracle) (st : AgentState) (dId : List Char)
    (rating : ℤ) (fbText : List Char)
    (h : ∀ d ∈ st.history, d.id ≠ dId) :
    provideFeedback llm st dId rating fbText = Except.ok st ∧
    explainDecision st dId = Except.ok (str "Decision not found.") := by
  have hfind : st.history.find? (fun x => x.id == dId) = none := by
    rw [List.find?_eq_none]
    intro x hx
    simpa using h x hx
  constructor
  · simp [provideFeedback, hfind]
  · simp [explainDecision, hfind]

/-- A decision populating the history of the C9 witness scenario. -/
def c9Decision : Decision :=
  ⟨str "hi", str "out", [], 0, str "LLM", str "known-id", str "t0", none, none⟩

/-- Witness for C9 at a concrete unknown decision id. -/
theorem claim_C9_witness :
    provideFeedback (fun _ => str "r") ⟨baseRules, [], [c9Decision], 2⟩
      (str "no-such-id") 5 (str "text") = Except.ok ⟨baseRules, [], [c9Decision], 2⟩ ∧
    explainDecision ⟨baseRules, [], [c9Decision], 2⟩ (str "no-such-id") =
      Except.ok (str "Decision not found.") :=
  claim_C9 (fun _ => str "r") ⟨baseRules, [], [c9Decision], 2⟩ (str "no-such-id")
    5 (str "text") (by decide)

/-- **C10.**  A rule whose condition is empty or whitespace-only matches
every query in every context (the whole condition is the query clause and
strips to the empty clause, which matches unconditionally), so such a rule
is eligible to be returned by `match_rule` for any input whatsoever. -/
theorem claim_C10 (cond q : List Char) (ctx : Ctx) (r : Rule)
    (hws : pyStrip (pyLower cond) = [])
    (hr : r.condition = cond) :
    conditionMatches cond (pyStrip (pyLower q)) ctx = true ∧
    matchRule [r] q ctx = some r := by
  have h1 : ∀ q', conditionMatches cond q' ctx = true := by
    intro q'
    simp [conditionMatches, conditionMatchesCL, contextAndQuery, hws, hasChar,
      queryClauseMatches]
  refine ⟨h1 _, ?_⟩
  simp [matchRule, matchedRules, List.filter, hr, h1, selectBest]

/-- Witness for C10: a whitespace-only condition matching an arbitrary query
under a non-empty context. -/
theorem claim_C10_witness :
    conditionMatches (str "  ") (pyStrip (pyLower (str "zebra"))) [(str "a", str "b")] = true ∧
    matchRule [mkNewRule (str "w") (str "  ") (str "act") addRuleConfidence (str "t0")]
      (str "zebra") [(str "a", str "b")] =
      some (mkNewRule (str "w") (str "  ") (str "act") addRuleConfidence (str "t0")) :=
  claim_C10 (str "  ") (str "zebra") [(str "a", str "b")]
    (mkNewRule (str "w") (str "  ") (str "act") addRuleConfidence (str "t0"))
    (by decide) rfl

/-- **C6.**  When the matched rules (in dict iteration order, which Python
keeps equal to insertion order) decompose as `l1 ++ b :: l2` with every rule
of `l1` scoring strictly below `b` and every rule of `l2` scoring at most
`b`, `match_rule` returns `b`: the matching rule of greatest
`confidence * success_rate`, and the earliest-inserted one among equal
scores (Python's stable sort with `reverse=True` preserves the original
order of equal keys). -/
theorem claim_C6 (rules : List Rule) (q : List Char) (ctx : Ctx)
    (l1 l2 : List Rule) (b : Rule)
    (hsplit : matchedRules rules q ctx = l1 ++ b :: l2)
    (h1 : ∀ r ∈ l1, score r < score b)
    (h2 : ∀ r ∈ l2, score r ≤ score b) :
    matchRule rules q ctx = some b := by
  rw [matchRule, hsplit]
  exact selectBest_append l1 b l2 h1 h2

/-- The two rules of the C6 witness scenario: both match the query `"x"`,
R1 scores `0.6` and R2 scores `0.9`. -/
def c6R1 : Rule := ⟨str "x", str "a1", str "r1", mkRat 3 5, 1, 0, str "t0", str "t0"⟩

/-- Second rule of the C6 witness scenario. -/
def c6R2 : Rule := ⟨str "x", str "a2", str "r2", mkRat 9 10, 1, 0, str "t0", str "t0"⟩

/-- Witness for C6: with both rules matching and scores `0.6 < 0.9`,
`match_rule` returns R2. -/
theorem claim_C6_witness : matchRule [c6R1, c6R2] (str "let us x") [] = some c6R2 :=
  claim_C6 [c6R1, c6R2] (str "let us x") [] [c6R1] [] c6R2 (by decide)
    (by
      intro r hr
      have hr1 : r = c6R1 := by simpa using hr
      subst hr1
      norm_num [score, successRate, c6R1, c6R2])
    (by intro r hr; simp at hr)

theorem execActionGo_eq_runParts (ps : List (List Char)) (acc : List (List Char))
    (ctx : Ctx) : execActionGo ps acc ctx = runParts (ps.map parsePart) acc ctx := by
  induction ps generalizing acc ctx with
  | nil => rfl
  | cons p rest ih =>
      simp only [List.map_cons]
      by_cases h1 : pyStartsWith (str "set_context:") p = true
      · simp only [execActionGo, parsePart, h1, if_pos]
        rcases hm : pySplitMax ':' 2 p with _ | ⟨a, _ | ⟨k, _ | ⟨v, _ | ⟨w, tail⟩⟩⟩⟩ <;>
          simp [runParts, ih]
      · by_cases h2 : pyStartsWith (str "clear_context:") p = true
        · simp only [execActionGo, parsePart, h1, h2, if_pos, if_neg, Bool.false_eq_true,
            ite_false, runParts]
          exact ih _ _
        · simp only [execActionGo, parsePart, h1, h2, Bool.false_eq_true, ite_false,
            runParts]
          exact ih _ _

/-- **C7.**  `_execute_action` implements exactly the split-parse-run
semantics the spec describes: it splits the action on `';'` and processes
the trimmed parts in order, where `set_context:<key>:<value>` inserts or
overwrites the context entry, `clear_context:<key>` removes the key (with
an absent key a no-op), a wrong-arity directive is skipped without aborting
the remaining parts, and the non-directive parts are joined with a single
space in original order to form the visible output.  The second and third
conjuncts record the insert/overwrite and absent-key-no-op semantics of the
context operations themselves. -/
theorem claim_C7 :
    (∀ action ctx, executeAction action ctx = executeActionSpec action ctx) ∧
    (∀ ctx k v, ctxGet (ctxSet ctx k v) k = some v) ∧
    (∀ ctx k, ctxGet ctx k = none → ctxDel ctx k = ctx) := by
  refine ⟨fun action ctx => ?_, ctxGet_ctxSet, ctxDel_absent⟩
  rw [executeAction, executeActionSpec, execActionGo_eq_runParts]

/-- Witness for C7 on a concrete action string exercising all part kinds
(a set directive, a malformed directive, literal text, a clear directive). -/
theorem claim_C7_witness :
    executeAction (str "set_context:mood:happy;set_context:oops;Done!;clear_context:x")
        [(str "x", str "1")] =
      executeActionSpec (str "set_context:mood:happy;set_context:oops;Done!;clear_context:x")
        [(str "x", str "1")] ∧
    ctxGet (ctxSet [(str "a", str "b")] (str "k") (str "v")) (str "k") = some (str "v") ∧
    ctxDel [(str "a", str "b")] (str "zz") = [(str "a", str "b")] :=
  ⟨claim_C7.1 _ _, claim_C7.2.1 _ _ _, claim_C7.2.2 _ _ (by decide)⟩

/-- **C8.**  Loading after saving reproduces the rule set exactly: with
pairwise-distinct ids (an invariant of the store, whose keys are unique),
the loaded dictionary maps each rule's id to a rule with every stored field
equal, in the same order, and therefore with the same derived
`success_rate`. -/
theorem claim_C8 (R : List Rule) (hids : List.Pairwise (fun a b => a.id ≠ b.id) R) :
    loadRules (saveRules R) = R.map (fun r => (r.id, r)) ∧
    (loadRules (saveRules R)).map (fun p => successRate p.2) = R.map successRate := by
  have hpair : List.Pairwise (fun (a b : RuleRecord) => a.id ≠ b.id) (saveRules R) := by
    unfold saveRules
    rw [List.pairwise_map]
    exact hids
  have hmain : loadRules (saveRules R) = R.map (fun r => (r.id, r)) := by
    unfold loadRules
    rw [loadRules_foldl (saveRules R) [] (by simp) hpair, List.nil_append]
    unfold saveRules
    rw [List.map_map]
    rfl
  exact ⟨hmain, by rw [hmain]; simp [List.map_map]⟩

/-- Witness for C8 on a concrete two-rule set with distinct ids. -/
theorem claim_C8_witness :
    loadRules (saveRules [mkNewRule (str "r1") (str "hello") (str "hi!") addRuleConfidence (str "t0"),
                          mkNewRule (str "r2") (str "bye") (str "bye!") consolidatedConfidence (str "t1")]) =
      [(str "r1", mkNewRule (str "r1") (str "hello") (str "hi!") addRuleConfidence (str "t0")),
       (str "r2", mkNewRule (str "r2") (str "bye") (str "bye!") consolidatedConfidence (str "t1"))] :=
  (claim_C8 _ (by decide)).1

/-- **C4.**  For a condition whose query clause is `'|'`-separated OR-groups
of `'+'`-separated AND-terms (terms non-empty, trimmed, lower-case and free
of the separator characters), the condition matches exactly when some
OR-group has every AND-term occurring as a substring of the lower-cased,
trimmed query. -/
theorem claim_C4 (gs : List (List (List Char))) (q : List Char) (ctx : Ctx)
    (hgs : gs ≠ [])
    (hterm : ∀ g ∈ gs, g ≠ [] ∧ ∀ t ∈ g, t ≠ [] ∧ pyStrip t = t ∧ pyLower t = t ∧
        hasChar '|' t = false ∧ hasChar '+' t = false ∧ hasChar ';' t = false) :
    (conditionMatches (joinSep '|' (gs.map (joinSep '+'))) (pyStrip (pyLower q)) ctx = true ↔
      ∃ g ∈ gs, ∀ t ∈ g, ∃ a b, pyStrip (pyLower q) = a ++ t ++ b) := by
  have hG : ∀ g ∈ gs, joinSep '+' g ≠ [] ∧ pyLower (joinSep '+' g) = joinSep '+' g ∧
      pyStrip (joinSep '+' g) = joinSep '+' g ∧ hasChar '|' (joinSep '+' g) = false ∧
      hasChar ';' (joinSep '+' g) = false := by
    intro g hg
    obtain ⟨hgne, ht⟩ := hterm g hg
    obtain ⟨t0, g', rfl⟩ := List.exists_cons_of_ne_nil hgne
    refine ⟨joinSep_ne_nil '+' t0 g' (ht t0 (by simp)).1, ?_, ?_, ?_, ?_⟩
    · rw [pyLower_joinSep '+' (by decide),
        map_eq_self_of _ _ (fun t htm => (ht t htm).2.2.1)]
    · exact (pyStrip_eq_self_iff _).mpr
        (joinSep_edges '+' (by decide) _
          (fun t htm => (pyStrip_eq_self_iff t).mp (ht t htm).2.1))
    · exact hasChar_joinSep '|' '+' _ (by decide) (fun t htm => (ht t htm).2.2.2.1)
    · exact hasChar_joinSep ';' '+' _ (by decide) (fun t htm => (ht t htm).2.2.2.2.2)
  set cond := joinSep '|' (gs.map (joinSep '+')) with hcond
  have hlow : pyLower cond = cond := by
    rw [hcond, pyLower_joinSep '|' (by decide),
      map_eq_self_of _ _ (fun G hG' => by
        obtain ⟨g, hg, rfl⟩ := List.mem_map.mp hG'
        exact (hG g hg).2.1)]
  have hstrip : pyStrip cond = cond :=
    (pyStrip_eq_self_iff _).mpr
      (joinSep_edges '|' (by decide) _ (fun G hG' => by
        obtain ⟨g, hg, rfl⟩ := List.mem_map.mp hG'
        exact (pyStrip_eq_self_iff _).mp (hG g hg).2.2.1))
  have hsemi : hasChar ';' cond = false := by
    rw [hcond]
    exact hasChar_joinSep ';' '|' _ (by decide) (fun G hG' => by
      obtain ⟨g, hg, rfl⟩ := List.mem_map.mp hG'
      exact (hG g hg).2.2.2.2)
  have hcondne : cond ≠ [] := by
    rw [hcond]
    obtain ⟨g0, gs', hgseq⟩ := List.exists_cons_of_ne_nil hgs
    rw [hgseq, List.map_cons]
    exact joinSep_ne_nil '|' _ _ (hG g0 (by rw [hgseq]; simp)).1
  have hqcm : conditionMatches cond (pyStrip (pyLower q)) ctx =
      queryClauseMatches cond (pyStrip (pyLower q)) := by
    rw [conditionMatches, hlow, hstrip, conditionMatchesCL, if_neg (by rw [hsemi]; simp),
      contextAndQuery, if_neg (by simp)]
  rw [hqcm, queryClauseMatches, if_neg hcondne, hcond,
    pySplit_joinSep '|' _ (by simpa using hgs) (fun G hG' => by
      obtain ⟨g, hg, rfl⟩ := List.mem_map.mp hG'
      exact (hG g hg).2.2.2.1),
    map_eq_self_of _ _ (fun G hG' => by
      obtain ⟨g, hg, rfl⟩ := List.mem_map.mp hG'
      exact (hG g hg).2.2.1)]
  simp only [List.any_eq_true, List.mem_map]
  constructor
  · rintro ⟨G, ⟨g, hg, rfl⟩, hf⟩
    refine ⟨g, hg, ?_⟩
    rw [pySplit_joinSep '+' g (hterm g hg).1
        (fun t ht => ((hterm g hg).2 t ht).2.2.2.2.1),
      map_eq_self_of g pyStrip (fun t ht => ((hterm g hg).2 t ht).2.1),
      List.all_eq_true] at hf
    intro t ht
    exact (isSub_iff t _).mp (hf t ht)
  · rintro ⟨g, hg, hall⟩
    refine ⟨joinSep '+' g, ⟨g, hg, rfl⟩, ?_⟩
    rw [pySplit_joinSep '+' g (hterm g hg).1
        (fun t ht => ((hterm g hg).2 t ht).2.2.2.2.1),
      map_eq_self_of g pyStrip (fun t ht => ((hterm g hg).2 t ht).2.1),
      List.all_eq_true]
    intro t ht
    exact (isSub_iff t _).mpr (hall t ht)

/-- Witness for C4: the condition `"a+b|c"` (groups `[["a","b"],["c"]]`)
against the query `"XX a YY b"`. -/
theorem claim_C4_witness :
    (conditionMatches (joinSep '|' ([[str "a", str "b"], [str "c"]].map (joinSep '+')))
        (pyStrip (pyLower (str "XX a YY b"))) [] = true ↔
      ∃ g ∈ [[str "a", str "b"], [str "c"]], ∀ t ∈ g,
        ∃ a b, pyStrip (pyLower (str "XX a YY b")) = a ++ t ++ b) :=
  claim_C4 [[str "a", str "b"], [str "c"]] (str "XX a YY b") [] (by decide) (by decide)

/-- **C5 (counterexample).**  The claim as stated fails on the code in two
ways.  (a) The condition `";hello"` has an empty clause before the `';'`,
which is missing the `context:` prefix — malformed in the claim's sense —
yet the rule matches the query `"hello"`: the source only fail-closes on a
*non-empty* context clause.  (b) Reading the condition
`"context:a:b:c;x"` as `context:k:v` with `k = "a:b"`, `v = "c"`: the
context `{"a": "b:c"}` has no key `"a:b"`, yet the rule matches the query
`"x"`, because the source splits the clause at the *first* `':'`
(`k = "a"`, `v = "b:c"`). -/
theorem claim_C5_counterexample :
    (pyStartsWith (str "context:") (str "") = false ∧
     conditionMatches (str ";hello") (str "hello") [] = true) ∧
    (ctxGet [(str "a", str "b:c")] (str "a:b") = none ∧
     conditionMatches (str "context:a:b:c;x") (str "x") [(str "a", str "b:c")] = true) := by
  decide

/-- **C5 (amended).**  For every context mapping, query, key `k` (free of
`':'` and `';'`, trimmed, lower-case) and value `v` (free of `';'`, trimmed,
lower-case): a rule whose condition is `context:k:v;rest` never matches
when `context[k] ≠ v` or `k` is absent, regardless of `rest`; and a
condition whose clause before the `';'` is non-empty after trimming,
lower-case, and malformed — missing the `context:` prefix, or missing an
inner `':'` after it — never matches any query (fail closed). -/
theorem claim_C5 :
    (∀ (k v rest q : List Char) (ctx : Ctx),
       hasChar ':' k = false → hasChar ';' k = false → pyStrip k = k → pyLower k = k →
       hasChar ';' v = false → pyStrip v = v → pyLower v = v →
       ctxGet ctx k ≠ some v →
       conditionMatches (str "context:" ++ k ++ str ":" ++ v ++ str ";" ++ rest) q ctx = false) ∧
    (∀ (c rest q : List Char) (ctx : Ctx),
       c ≠ [] → hasChar ';' c = false → pyStrip c = c → pyLower c = c →
       (pyStartsWith (str "context:") c = false ∨ hasChar ':' (c.drop 8) = false) →
       conditionMatches (c ++ str ";" ++ rest) q ctx = false) := by
  constructor
  · intro k v rest q ctx hkc hks hkstrip hklow hvs hvstrip hvlow hctx
    have hshape : str "context:" ++ k ++ str ":" ++ v ++ str ";" ++ rest
        = (str "context:" ++ (k ++ ':' :: v)) ++ ';' :: rest := by
      simp [show str ":" = [':'] from by decide, show str ";" = [';'] from by decide]
    rw [hshape]
    have hlowST : pyLower (str "context:") = str "context:" := by decide
    have hlowC : Char.toLower ':' = ':' := by decide
    have hlowS : Char.toLower ';' = ';' := by decide
    have hAlow : pyLower (str "context:" ++ (k ++ ':' :: v)) = str "context:" ++ (k ++ ':' :: v) := by
      rw [pyLower_append, pyLower_append, pyLower_cons, hlowST, hlowC, hklow, hvlow]
    have hAne : (str "context:" ++ (k ++ ':' :: v)) ≠ [] := by
      intro hnil
      have := congrArg List.length hnil
      simp [str] at this
    have hAhead : ∀ x ∈ (str "context:" ++ (k ++ ':' :: v)).head?, isPySpace x = false := by
      rw [head?_append_of_ne_nil _ _ (by decide)]
      intro x hx
      have hc : (str "context:").head? = some 'c' := by decide
      rw [hc] at hx
      simp only [Option.mem_some_iff] at hx
      subst hx
      decide
    have hAlast : ∀ x ∈ (str "context:" ++ (k ++ ':' :: v)).getLast?, isPySpace x = false := by
      intro x hx
      cases hv0 : v with
      | nil =>
          rw [hv0] at hx
          rw [show str "context:" ++ (k ++ ':' :: ([] : List Char))
              = (str "context:" ++ k) ++ [':'] by simp] at hx
          rw [getLast?_append_right _ _ (by simp)] at hx
          simp only [List.getLast?_singleton, Option.mem_some_iff] at hx
          subst hx
          decide
      | cons y ys =>
          rw [show str "context:" ++ (k ++ ':' :: v)
              = (str "context:" ++ k ++ [':']) ++ v by simp] at hx
          rw [getLast?_append_right _ _ (by simp [hv0])] at hx
          exact ((pyStrip_eq_self_iff v).mp hvstrip).2 x hx
    have hAstrip : pyStrip (str "context:" ++ (k ++ ':' :: v)) = str "context:" ++ (k ++ ':' :: v) :=
      (pyStrip_eq_self_iff _).mpr ⟨hAhead, hAlast⟩
    have hsemiA : hasChar ';' (str "context:" ++ (k ++ ':' :: v)) = false := by
      have hd : hasChar ';' (str "context:") = false := by decide
      simp [hasChar_append, hd, hks, hasChar, hvs]
    have hlowfull : pyLower ((str "context:" ++ (k ++ ':' :: v)) ++ ';' :: rest)
        = (str "context:" ++ (k ++ ':' :: v)) ++ ';' :: pyLower rest := by
      rw [pyLower_append, pyLower_cons, hAlow, hlowS]
    have hcl : pyStrip (pyLower ((str "context:" ++ (k ++ ':' :: v)) ++ ';' :: rest))
        = (str "context:" ++ (k ++ ':' :: v)) ++ ';' :: stripRight (pyLower rest) := by
      rw [hlowfull, pyStrip_append_cons _ _ ';' hAhead hAne (by decide)]
    rw [conditionMatches, hcl, conditionMatchesCL,
      if_pos (by simp [hasChar_append, hasChar]),
      splitOnce_append ';' _ _ hsemiA]
    simp only [hAstrip]
    rw [contextAndQuery, if_pos (by exact hAne),
      if_pos (pyStartsWith_self_append (str "context:") (k ++ ':' :: v)),
      show (str "context:" ++ (k ++ ':' :: v)).drop 8 = k ++ ':' :: v from
        List.drop_left (str "context:") (k ++ ':' :: v),
      if_pos (by simp [hasChar_append, hasChar]),
      splitOnce_append ':' k v hkc]
    rw [if_neg hctx]
  · intro c rest q ctx hcne hcs hcstrip hclow hmal
    have hshape : c ++ str ";" ++ rest = c ++ ';' :: rest := by
      simp [show str ";" = [';'] from by decide]
    rw [hshape]
    have hedges := (pyStrip_eq_self_iff c).mp hcstrip
    have hlowS : Char.toLower ';' = ';' := by decide
    have hlowfull : pyLower (c ++ ';' :: rest) = c ++ ';' :: pyLower rest := by
      rw [pyLower_append, pyLower_cons, hclow, hlowS]
    have hcl : pyStrip (pyLower (c ++ ';' :: rest)) = c ++ ';' :: stripRight (pyLower rest) := by
      rw [hlowfull, pyStrip_append_cons c _ ';' hedges.1 hcne (by decide)]
    rw [conditionMatches, hcl, conditionMatchesCL,
      if_pos (by simp [hasChar_append, hasChar]),
      splitOnce_append ';' _ _ hcs]
    simp only [hcstrip]
    rw [contextAndQuery, if_pos (by exact hcne)]
    rcases hmal with hm | hm
    · rw [hm]
      simp
    · by_cases hpw : pyStartsWith (str "context:") c = true
      · rw [if_pos hpw, if_neg (by rw [hm]; simp)]
      · rw [if_neg (by simpa using hpw)]

/-- Witness for the amended C5: (a) the context-guarded rule
`"context:genre:scifi;movie"` does not match `"movie"` under a context
binding `genre` to `"action"`; (b) the malformed clause `"ctx:a:b"`
(missing prefix) and `"context:flag"` (no inner `':'`) never match. -/
theorem claim_C5_witness :
    conditionMatches (str "context:" ++ str "genre" ++ str ":" ++ str "scifi" ++ str ";" ++ str "movie")
      (str "movie") [(str "genre", str "action")] = false ∧
    conditionMatches (str "ctx:a:b" ++ str ";" ++ str "x") (str "x") [] = false ∧
    conditionMatches (str "context:flag" ++ str ";" ++ str "x") (str "x") [] = false :=
  ⟨claim_C5.1 (str "genre") (str "scifi") (str "movie") (str "movie")
      [(str "genre", str "action")] (by decide) (by decide) (by decide) (by decide)
      (by decide) (by decide) (by decide) (by decide),
   claim_C5.2 (str "ctx:a:b") (str "x") (str "x") [] (by decide) (by decide)
      (by decide) (by decide) (Or.inl (by decide)),
   claim_C5.2 (str "context:flag") (str "x") (str "x") [] (by decide) (by decide)
      (by decide) (by decide) (Or.inr (by decide))⟩
